import Mathlib

/-!
Verification of the numerical hyperparameter encoding engine
(`btb/tuning/hyperparams/numerical.py`).

The two classes `FloatHyperParam` and `IntHyperParam` are embedded shallowly
over the rationals `ℚ`: Python's true division, the `+ 0.5` offsets and
numpy's `.round()` (round half to even) are modelled exactly in rational
arithmetic.  Python integers are `ℤ`.  The constructors `__init__` become
`make` functions computing the stored attributes; neither constructor
validates its bounds.  `FloatHyperParam.__init__` contains no division and
cannot raise, so its `make` is the whole story; `IntHyperParam.__init__`
can raise `ZeroDivisionError` from its two divisions, and that single
failure path is modelled by `IntHyperParam.init`, which returns `none`
exactly where Python raises.  The private numeric hooks `_transform` /
`_inverse_transform` become the Lean functions `transform` /
`inverse_transform` (the leading underscore is dropped).
-/

set_option maxHeartbeats 1000000

/-- Python `sys.float_info.min`: the smallest positive normalized IEEE-754
double, `2^(-1022)`, as an exact rational.  Note that this is a tiny
POSITIVE number, not the most negative finite double. -/
def sys_float_info_min : ℚ := 1 / 2 ^ 1022

/-- Python `sys.float_info.max`: the largest finite IEEE-754 double,
`(2 - 2^(-52)) * 2^1023 = 2^1024 - 2^971`, as an exact rational. -/
def sys_float_info_max : ℚ := 2 ^ 1024 - 2 ^ 971

/-- The most negative representable finite IEEE-754 double,
`-sys.float_info.max`. -/
def most_negative_finite : ℚ := -sys_float_info_max

/-- A bound argument of `FloatHyperParam.__init__`: `unbounded` models both
Python `None` and the infinity the constructor tests for (`min is None or
min == -np.inf`, symmetrically for `max`); the code treats the two
identically.  `finite q` models a finite float argument. -/
inductive FloatBound where
  | unbounded
  | finite (q : ℚ)

/-- State of a constructed `FloatHyperParam` (numerical.py, lines 38-63):
the stored attributes `min`, `max`, `range = max - min`, `include_min`,
`include_max`. -/
structure FloatHyperParam where
  min : ℚ
  max : ℚ
  range : ℚ
  include_min : Bool
  include_max : Bool

/-- `FloatHyperParam.__init__` (numerical.py, lines 50-63).  `None` or
`-np.inf` as `min` is replaced by `sys.float_info.min`; `None` or `np.inf`
as `max` is replaced by `sys.float_info.max`; then `range = max - min` is
stored.  The Python code performs no validation and cannot raise, so this
is a total function. -/
def FloatHyperParam.make (mn mx : FloatBound) (include_min include_max : Bool) :
    FloatHyperParam :=
  let m : ℚ := match mn with
    | FloatBound.unbounded => sys_float_info_min
    | FloatBound.finite q => q
  let M : ℚ := match mx with
    | FloatBound.unbounded => sys_float_info_max
    | FloatBound.finite q => q
  { min := m, max := M, range := M - m,
    include_min := include_min, include_max := include_max }

/-- `FloatHyperParam._inverse_transform` (numerical.py, lines 65-87):
`values * self.range + self.min`, elementwise. -/
def FloatHyperParam.inverse_transform (p : FloatHyperParam) (values : ℚ) : ℚ :=
  values * p.range + p.min

/-- `FloatHyperParam._transform` (numerical.py, lines 89-112):
`(values - self.min) / self.range`, elementwise. -/
def FloatHyperParam.transform (p : FloatHyperParam) (values : ℚ) : ℚ :=
  (values - p.min) / p.range

/-- A well-formed `FloatHyperParam` instance in the sense of the spec:
finite `min < max`, and the stored `range` is the one the constructor
derives (`max - min`). -/
@[reducible] def FloatHyperParam.wf (p : FloatHyperParam) : Prop :=
  p.min < p.max ∧ p.range = p.max - p.min

/-- State of a constructed `IntHyperParam` (numerical.py, lines 135-160):
the stored attributes `min`, `max`, `step`,
`range = ((max - min) / step) + 1` (a true-division rational) and
`interval = 1 / range`. -/
structure IntHyperParam where
  min : ℤ
  max : ℤ
  step : ℤ
  range : ℚ
  interval : ℚ
  include_min : Bool
  include_max : Bool

/-- `IntHyperParam.__init__` (numerical.py, lines 145-160).  A `None` bound
defaults to `±sys.maxsize / 2`; in Python this float division rounds
`9223372036854775807 / 2` to exactly `2^62`, and `int()` of it is `2^62`,
so the defaults are `-(2^62)` and `2^62`.  `include_min = False` stores
`int(min) + 1`; `include_max = False` stores `int(max) - 1` (a shift by
exactly one, independent of `step`).  Then `range = ((max - min) / step) + 1`
(true division) and `interval = 1 / range`.  This function models only the
attribute computation and is total (Lean's `1 / 0 = 0`); the constructor's
one failure path — a Python `ZeroDivisionError` from `(max - min) / step`
when `step = 0`, or from `interval = 1 / range` when the derived `range`
is exactly `0` — is modelled by `IntHyperParam.init` below. -/
def IntHyperParam.make (mn mx : Option ℤ) (include_min include_max : Bool)
    (step : ℤ) : IntHyperParam :=
  let m0 : ℤ := match mn with
    | none => -(2 ^ 62)
    | some m => m
  let M0 : ℤ := match mx with
    | none => 2 ^ 62
    | some M => M
  let m : ℤ := if include_min then m0 else m0 + 1
  let M : ℤ := if include_max then M0 else M0 - 1
  let range : ℚ := ((M : ℚ) - (m : ℚ)) / (step : ℚ) + 1
  { min := m, max := M, step := step, range := range, interval := 1 / range,
    include_min := include_min, include_max := include_max }

/-- `IntHyperParam.__init__` (numerical.py, lines 145-160) including its
only failure path.  Python raises `ZeroDivisionError` when a division by
zero occurs: at `range = ((max - min) / step) + 1` if `step = 0`, or at
`interval = 1 / self.range` if the derived `range` is exactly `0` (in
exact arithmetic, adjusted `min = max + step`).  In every other case the
constructor returns normally with the attributes of
`IntHyperParam.make`.  The checks appear in the order Python evaluates
the divisions. -/
def IntHyperParam.init (mn mx : Option ℤ) (include_min include_max : Bool)
    (step : ℤ) : Option IntHyperParam :=
  if step = 0 then none
  else if (IntHyperParam.make mn mx include_min include_max step).range = 0 then none
  else some (IntHyperParam.make mn mx include_min include_max step)

/-- numpy's `.round()`: round to the nearest integer, ties to the even
integer (IEEE-754 round-half-even, the rounding `np.round` documents and
implements for `.5` fractions). -/
def roundHalfEven (q : ℚ) : ℤ :=
  if q - ⌊q⌋ < 1 / 2 then ⌊q⌋
  else if 1 / 2 < q - ⌊q⌋ then ⌊q⌋ + 1
  else if ⌊q⌋ % 2 = 0 then ⌊q⌋ else ⌊q⌋ + 1

/-- `IntHyperParam._inverse_transform` (numerical.py, lines 162-191):
`unscaled = values / interval - 0.5 + min`, `rounded = unscaled.round()`,
`restricted = np.minimum(np.maximum(rounded, min), max)`, returned as int
(the value is already integral, so `astype(int)` is the identity). -/
def IntHyperParam.inverse_transform (p : IntHyperParam) (values : ℚ) : ℤ :=
  Min.min (Max.max (roundHalfEven (values / p.interval - 1 / 2 + (p.min : ℚ))) p.min) p.max

/-- `IntHyperParam._transform` (numerical.py, lines 193-214):
`(values - self.min + 0.5) * self.interval`, elementwise. -/
def IntHyperParam.transform (p : IntHyperParam) (values : ℚ) : ℚ :=
  (values - (p.min : ℚ) + 1 / 2) * p.interval

/-- Modelled from the spec: the public `transform` / `inverse_transform`
entry points live on `BaseHyperParam` (`btb/tuning/hyperparams/base.py`,
not among the sources); per the spec they only validate/reshape and
delegate the numeric work elementwise to the private hooks.  Hence
`IntHyperParam.sample` (numerical.py, lines 216-220), which computes
`self.transform(self.inverse_transform(sampled))` on uniform draws,
produces for each drawn unit-space value `u` the number
`transform(inverse_transform(u))`, which is this function. -/
def IntHyperParam.sampleValue (p : IntHyperParam) (u : ℚ) : ℚ :=
  p.transform ((p.inverse_transform u : ℤ) : ℚ)

/-- A well-formed `IntHyperParam` instance in the sense of the spec:
adjusted `min ≤ max`, `step ≥ 1`, and the stored `range` and `interval`
are the ones the constructor derives. -/
@[reducible] def IntHyperParam.wf (p : IntHyperParam) : Prop :=
  p.min ≤ p.max ∧ 1 ≤ p.step ∧
  p.range = ((p.max : ℚ) - (p.min : ℚ)) / (p.step : ℚ) + 1 ∧
  p.interval = 1 / p.range

/-! ### Helper lemmas about `roundHalfEven` -/

/-- Rounding an integer returns it unchanged. -/
lemma roundHalfEven_intCast (n : ℤ) : roundHalfEven (n : ℚ) = n := by
  unfold roundHalfEven
  rw [Int.floor_intCast]
  rw [if_pos]
  norm_num

/-- `roundHalfEven` never exceeds the ceiling. -/
lemma roundHalfEven_le_ceil (q : ℚ) : roundHalfEven q ≤ ⌈q⌉ := by
  unfold roundHalfEven
  split_ifs with h1 h2 h3
  · exact Int.floor_le_ceil q
  · exact Int.add_one_le_iff.mpr (Int.lt_ceil.mpr (by
      have := Int.floor_le q
      linarith))
  · exact Int.floor_le_ceil q
  · exact Int.add_one_le_iff.mpr (Int.lt_ceil.mpr (by
      have h : q - (⌊q⌋ : ℚ) = 1 / 2 := le_antisymm (not_lt.mp h2) (not_lt.mp h1)
      linarith))

/-- `roundHalfEven` is at least the floor. -/
lemma floor_le_roundHalfEven (q : ℚ) : ⌊q⌋ ≤ roundHalfEven q := by
  unfold roundHalfEven
  split_ifs <;> omega

/-- If `q ≤ n` for an integer `n` then `roundHalfEven q ≤ n`. -/
lemma roundHalfEven_le_of_le {q : ℚ} {n : ℤ} (h : q ≤ (n : ℚ)) :
    roundHalfEven q ≤ n :=
  (roundHalfEven_le_ceil q).trans (Int.ceil_le.mpr h)

/-- If `n ≤ q` for an integer `n` then `n ≤ roundHalfEven q`. -/
lemma le_roundHalfEven_of_le {q : ℚ} {n : ℤ} (h : (n : ℚ) ≤ q) :
    n ≤ roundHalfEven q :=
  (Int.le_floor.mpr h).trans (floor_le_roundHalfEven q)

/-- An exact half-integer tie is resolved to the even neighbour. -/
lemma roundHalfEven_int_add_half (i : ℤ) :
    roundHalfEven ((i : ℚ) + 1 / 2) = if i % 2 = 0 then i else i + 1 := by
  unfold roundHalfEven
  have hf : ⌊(i : ℚ) + 1 / 2⌋ = i := by
    rw [add_comm, Int.floor_add_int]
    norm_num
  rw [hf]
  have hfrac : (i : ℚ) + 1 / 2 - (i : ℚ) = 1 / 2 := by ring
  rw [hfrac]
  rw [if_neg (lt_irrefl (1 / 2 : ℚ)), if_neg (lt_irrefl (1 / 2 : ℚ))]

/-! ### Helper lemmas about well-formed instances -/

/-- A well-formed `IntHyperParam` has `range ≥ 1`. -/
lemma IntHyperParam.one_le_range (p : IntHyperParam) (h : p.wf) : 1 ≤ p.range := by
  obtain ⟨hmM, hs, hr, _⟩ := h
  have hs0 : (0 : ℚ) < (p.step : ℚ) := by
    have : (0 : ℤ) < p.step := by omega
    exact_mod_cast this
  have hnum : (0 : ℚ) ≤ (p.max : ℚ) - (p.min : ℚ) := by
    have : (p.min : ℚ) ≤ (p.max : ℚ) := by exact_mod_cast hmM
    linarith
  have : (0 : ℚ) ≤ ((p.max : ℚ) - (p.min : ℚ)) / (p.step : ℚ) :=
    div_nonneg hnum hs0.le
  rw [hr]
  linarith

/-- A well-formed `IntHyperParam` has `range > 0`. -/
lemma IntHyperParam.range_pos (p : IntHyperParam) (h : p.wf) : 0 < p.range :=
  lt_of_lt_of_le one_pos (p.one_le_range h)

/-- A well-formed `IntHyperParam` has `interval > 0`. -/
lemma IntHyperParam.interval_pos (p : IntHyperParam) (h : p.wf) : 0 < p.interval := by
  rw [h.2.2.2]
  exact one_div_pos.mpr (p.range_pos h)

/-- `interval * range = 1` for a well-formed `IntHyperParam`. -/
lemma IntHyperParam.interval_mul_range (p : IntHyperParam) (h : p.wf) :
    p.interval * p.range = 1 := by
  rw [h.2.2.2]
  exact one_div_mul_cancel (ne_of_gt (p.range_pos h))

/-- Dividing by `interval` is multiplying by `range`. -/
lemma IntHyperParam.div_interval (p : IntHyperParam) (h : p.wf) (v : ℚ) :
    v / p.interval = v * p.range := by
  rw [h.2.2.2, one_div, div_inv_eq_mul]

/-- The unscaling step of `_inverse_transform` undoes `_transform` exactly
(in rational arithmetic), for any real argument. -/
lemma IntHyperParam.unscale_transform (p : IntHyperParam) (h : p.wf) (x : ℚ) :
    p.transform x / p.interval - 1 / 2 + (p.min : ℚ) = x := by
  rw [p.div_interval h]
  have him := p.interval_mul_range h
  simp only [IntHyperParam.transform]
  calc (x - (p.min : ℚ) + 1 / 2) * p.interval * p.range - 1 / 2 + (p.min : ℚ)
      = (x - (p.min : ℚ) + 1 / 2) * (p.interval * p.range) - 1 / 2 + (p.min : ℚ) := by
        ring
    _ = x := by rw [him]; ring

/-- The clamp `np.minimum(np.maximum(r, min), max)` stays above `min`. -/
lemma IntHyperParam.clamp_ge (p : IntHyperParam) (hmM : p.min ≤ p.max) (r : ℤ) :
    p.min ≤ Min.min (Max.max r p.min) p.max :=
  le_min (le_max_right r p.min) hmM

/-- The clamp `np.minimum(np.maximum(r, min), max)` stays below `max`. -/
lemma IntHyperParam.clamp_le (p : IntHyperParam) (r : ℤ) :
    Min.min (Max.max r p.min) p.max ≤ p.max :=
  min_le_right _ _

/-- Clamping a value that is already in `[min, max]` returns it. -/
lemma IntHyperParam.clamp_of_mem (p : IntHyperParam) {r : ℤ}
    (h1 : p.min ≤ r) (h2 : r ≤ p.max) :
    Min.min (Max.max r p.min) p.max = r := by
  rw [max_eq_left h1, min_eq_left h2]

/-- Clamping a value at most `min` returns `min`. -/
lemma IntHyperParam.clamp_eq_min (p : IntHyperParam) (hmM : p.min ≤ p.max) {r : ℤ}
    (h : r ≤ p.min) : Min.min (Max.max r p.min) p.max = p.min := by
  rw [max_eq_right h, min_eq_left hmM]

/-- Clamping a value at least `max` returns `max`. -/
lemma IntHyperParam.clamp_eq_max (p : IntHyperParam) {r : ℤ}
    (h : p.max ≤ r) : Min.min (Max.max r p.min) p.max = p.max :=
  min_eq_right (h.trans (le_max_left r p.min))

/-- Core round-trip lemma: on any lattice integer within bounds the
inverse transform of the transform is the identity. -/
lemma IntHyperParam.inv_transform_int (p : IntHyperParam) (h : p.wf) {i : ℤ}
    (h1 : p.min ≤ i) (h2 : i ≤ p.max) :
    p.inverse_transform (p.transform (i : ℚ)) = i := by
  simp only [IntHyperParam.inverse_transform]
  rw [p.unscale_transform h, roundHalfEven_intCast]
  exact p.clamp_of_mem h1 h2

/-- `inverse_transform` never returns below `min`. -/
lemma IntHyperParam.inv_ge (p : IntHyperParam) (hmM : p.min ≤ p.max) (v : ℚ) :
    p.min ≤ p.inverse_transform v :=
  p.clamp_ge hmM _

/-- `inverse_transform` never returns above `max`. -/
lemma IntHyperParam.inv_le (p : IntHyperParam) (v : ℚ) :
    p.inverse_transform v ≤ p.max :=
  p.clamp_le _

/-! ### Claim theorems -/

/-- C1: for every well-formed `IntHyperParam` (adjusted `min ≤ max`,
`step ≥ 1`) and every integer `i` with `min ≤ i ≤ max`,
`inverse_transform (transform i) = i` exactly: the transform sends `i` to
`(i - min + 0.5) * interval`, and the inverse divides by `interval`,
subtracts `0.5`, adds `min` (recovering `i` exactly), rounds and clamps,
returning `i`. -/
theorem int_round_trip_exact (p : IntHyperParam) (hwf : p.wf) (i : ℤ)
    (h1 : p.min ≤ i) (h2 : i ≤ p.max) :
    p.inverse_transform (p.transform (i : ℚ)) = i :=
  p.inv_transform_int hwf h1 h2

/-- Witness for C1 at the spec's example `min = 1`, `max = 4`, `step = 1`,
`i = 4`. -/
theorem int_round_trip_exact_witness :
    (IntHyperParam.make (some 1) (some 4) true true 1).wf ∧
    (IntHyperParam.make (some 1) (some 4) true true 1).inverse_transform
      ((IntHyperParam.make (some 1) (some 4) true true 1).transform ((4 : ℤ) : ℚ)) = 4 :=
  ⟨by norm_num [IntHyperParam.make, IntHyperParam.wf],
   int_round_trip_exact _ (by norm_num [IntHyperParam.make, IntHyperParam.wf]) 4
     (by norm_num [IntHyperParam.make]) (by norm_num [IntHyperParam.make])⟩

/-- C2: for every well-formed `FloatHyperParam` (finite `min < max`) and
every `v ∈ [min, max]`, `inverse_transform (transform v) = v` exactly in
rational arithmetic: `(v - min) / range * range + min = v` with
`range = max - min ≠ 0`. -/
theorem float_round_trip_exact (p : FloatHyperParam) (hwf : p.wf) (v : ℚ)
    (_h1 : p.min ≤ v) (_h2 : v ≤ p.max) :
    p.inverse_transform (p.transform v) = v := by
  obtain ⟨hlt, hr⟩ := hwf
  have hne : p.range ≠ 0 := by
    rw [hr]
    exact sub_ne_zero.mpr (ne_of_gt hlt)
  simp only [FloatHyperParam.inverse_transform, FloatHyperParam.transform]
  field_simp

/-- Witness for C2 at the spec's example `min = 0.1`, `max = 0.9`,
`v = 0.8`. -/
theorem float_round_trip_exact_witness :
    (FloatHyperParam.make (FloatBound.finite (1 / 10)) (FloatBound.finite (9 / 10))
        true true).wf ∧
    (FloatHyperParam.make (FloatBound.finite (1 / 10)) (FloatBound.finite (9 / 10))
        true true).inverse_transform
      ((FloatHyperParam.make (FloatBound.finite (1 / 10)) (FloatBound.finite (9 / 10))
        true true).transform (8 / 10)) = 8 / 10 :=
  ⟨by norm_num [FloatHyperParam.make, FloatHyperParam.wf],
   float_round_trip_exact _ (by norm_num [FloatHyperParam.make, FloatHyperParam.wf])
     (8 / 10) (by norm_num [FloatHyperParam.make]) (by norm_num [FloatHyperParam.make])⟩

/-- C3: for every well-formed `IntHyperParam` (adjusted `min ≤ max`) and
every rational input whatsoever (including values outside `[0, 1)`), the
inverse transform returns an integer in `[min, max]`: the rounded value is
clamped by `np.minimum(np.maximum(·, min), max)`.  The embedded function
is total, matching the fact that the Python code raises nothing. -/
theorem int_inverse_transform_mem (p : IntHyperParam) (hwf : p.wf) (v : ℚ) :
    p.min ≤ p.inverse_transform v ∧ p.inverse_transform v ≤ p.max :=
  ⟨p.inv_ge hwf.1 v, p.inv_le v⟩

/-- Witness for C3 at `min = 1`, `max = 4`, `step = 1` and the wildly
out-of-range input `37`. -/
theorem int_inverse_transform_mem_witness :
    (IntHyperParam.make (some 1) (some 4) true true 1).min ≤
      (IntHyperParam.make (some 1) (some 4) true true 1).inverse_transform 37 ∧
    (IntHyperParam.make (some 1) (some 4) true true 1).inverse_transform 37 ≤
      (IntHyperParam.make (some 1) (some 4) true true 1).max :=
  int_inverse_transform_mem _ (by norm_num [IntHyperParam.make, IntHyperParam.wf]) 37

/-- C4 counterexample: the claim asserts `inverse_transform 1 = max` for
every instance with adjusted `min ≤ max` and `step ≥ 1`, but at
`min = 0`, `max = 4`, `step = 2` (a well-formed instance, `range = 3`,
`interval = 1/3`) the code computes `round(1/(1/3) - 0.5 + 0) =
round(2.5) = 2`, which survives the clamp and differs from `max = 4`. -/
theorem int_boundary_counterexample :
    (IntHyperParam.make (some 0) (some 4) true true 2).wf ∧
    (IntHyperParam.make (some 0) (some 4) true true 2).inverse_transform 1 = 2 ∧
    (IntHyperParam.make (some 0) (some 4) true true 2).max = 4 ∧ (2 : ℤ) ≠ 4 := by
  refine ⟨?_, ?_, rfl, by decide⟩
  · norm_num [IntHyperParam.make, IntHyperParam.wf]
  · norm_num [IntHyperParam.make, IntHyperParam.inverse_transform, roundHalfEven]

/-- C4 as amended: for every well-formed `IntHyperParam`,
`inverse_transform 0 = min` and every normalized value strictly below half
an interval width maps to `min` (never below it) — for any `step ≥ 1`;
the symmetric statements `inverse_transform 1 = max` and "values above
the last bucket boundary resolve to `max`" hold when `step = 1`
(for `step > 1` they can fail, as the counterexample at `min = 0`,
`max = 4`, `step = 2` shows). -/
theorem int_boundary_clamp_amended (p : IntHyperParam) (hwf : p.wf) :
    p.inverse_transform 0 = p.min ∧
    (∀ v : ℚ, v < p.interval / 2 → p.inverse_transform v = p.min) ∧
    (p.step = 1 →
      p.inverse_transform 1 = p.max ∧
      ∀ v : ℚ, 1 - p.interval / 2 < v → p.inverse_transform v = p.max) := by
  have hmM := hwf.1
  have hint := p.interval_pos hwf
  have hir := p.interval_mul_range hwf
  have hrpos := p.range_pos hwf
  have hlo : ∀ v : ℚ, v < p.interval / 2 → p.inverse_transform v = p.min := by
    intro v hv
    simp only [IntHyperParam.inverse_transform]
    apply p.clamp_eq_min hmM
    apply roundHalfEven_le_of_le
    rw [p.div_interval hwf]
    have hm : v * p.range < p.interval / 2 * p.range :=
      mul_lt_mul_of_pos_right hv hrpos
    have h2 : p.interval / 2 * p.range = 1 / 2 := by
      rw [div_mul_eq_mul_div, hir]
    linarith
  have hhi : p.step = 1 →
      p.inverse_transform 1 = p.max ∧
      ∀ v : ℚ, 1 - p.interval / 2 < v → p.inverse_transform v = p.max := by
    intro hstep
    have hrange : p.range = (p.max : ℚ) - (p.min : ℚ) + 1 := by
      rw [hwf.2.2.1, hstep]
      norm_num
    have hhi2 : ∀ v : ℚ, 1 - p.interval / 2 < v → p.inverse_transform v = p.max := by
      intro v hv
      simp only [IntHyperParam.inverse_transform]
      apply p.clamp_eq_max
      apply le_roundHalfEven_of_le
      rw [p.div_interval hwf]
      have hm : (1 - p.interval / 2) * p.range < v * p.range :=
        mul_lt_mul_of_pos_right hv hrpos
      have h2 : (1 - p.interval / 2) * p.range = p.range - 1 / 2 := by
        rw [sub_mul, one_mul, div_mul_eq_mul_div, hir]
      rw [hrange] at h2
      linarith
    exact ⟨hhi2 1 (by linarith), hhi2⟩
  exact ⟨hlo 0 (half_pos hint), hlo, hhi⟩

/-- Witness for the amended C4 at `min = 1`, `max = 4`, `step = 1`
(`interval = 1/4`): `inverse_transform 0 = 1`, `inverse_transform (1/16) = 1`
(`1/16 < 1/8`), and `inverse_transform 1 = 4`. -/
theorem int_boundary_clamp_amended_witness :
    (IntHyperParam.make (some 1) (some 4) true true 1).inverse_transform 0 =
      (IntHyperParam.make (some 1) (some 4) true true 1).min ∧
    (IntHyperParam.make (some 1) (some 4) true true 1).inverse_transform (1 / 16) =
      (IntHyperParam.make (some 1) (some 4) true true 1).min ∧
    (IntHyperParam.make (some 1) (some 4) true true 1).inverse_transform 1 =
      (IntHyperParam.make (some 1) (some 4) true true 1).max :=
  ⟨(int_boundary_clamp_amended _
      (by norm_num [IntHyperParam.make, IntHyperParam.wf])).1,
   (int_boundary_clamp_amended _
      (by norm_num [IntHyperParam.make, IntHyperParam.wf])).2.1 (1 / 16)
      (by norm_num [IntHyperParam.make]),
   ((int_boundary_clamp_amended _
      (by norm_num [IntHyperParam.make, IntHyperParam.wf])).2.2 rfl).1⟩

/-- C5: for every well-formed `IntHyperParam` and every drawn unit-space
value `u ∈ [0, 1)`, the value `sample` produces for `u` is
`transform (inverse_transform u)`, which equals `transform i` for some
integer `i` with `min ≤ i ≤ max`; and the map
`u ↦ transform (inverse_transform u)` is idempotent. -/
theorem int_sample_on_lattice (p : IntHyperParam) (hwf : p.wf) (u : ℚ)
    (_h0 : 0 ≤ u) (_h1 : u < 1) :
    (∃ i : ℤ, p.min ≤ i ∧ i ≤ p.max ∧ p.sampleValue u = p.transform (i : ℚ)) ∧
    p.sampleValue (p.sampleValue u) = p.sampleValue u := by
  constructor
  · exact ⟨p.inverse_transform u, p.inv_ge hwf.1 u, p.inv_le u, rfl⟩
  · simp only [IntHyperParam.sampleValue]
    rw [p.inv_transform_int hwf (p.inv_ge hwf.1 u) (p.inv_le u)]

/-- Witness for C5 at `min = 1`, `max = 4`, `step = 1` and the draw
`u = 1/3`. -/
theorem int_sample_on_lattice_witness :
    (∃ i : ℤ, (IntHyperParam.make (some 1) (some 4) true true 1).min ≤ i ∧
      i ≤ (IntHyperParam.make (some 1) (some 4) true true 1).max ∧
      (IntHyperParam.make (some 1) (some 4) true true 1).sampleValue (1 / 3) =
        (IntHyperParam.make (some 1) (some 4) true true 1).transform (i : ℚ)) ∧
    (IntHyperParam.make (some 1) (some 4) true true 1).sampleValue
        ((IntHyperParam.make (some 1) (some 4) true true 1).sampleValue (1 / 3)) =
      (IntHyperParam.make (some 1) (some 4) true true 1).sampleValue (1 / 3) :=
  int_sample_on_lattice _ (by norm_num [IntHyperParam.make, IntHyperParam.wf])
    (1 / 3) (by norm_num) (by norm_num)

/-- C6 counterexample: the claim asserts construction fails when (adjusted)
`min > max`, but neither `__init__` contains any bounds validation:
`FloatHyperParam(1, 0)` is silently created with `range = -1 < 0`, and
`IntHyperParam(5, 3)` is silently created with `range = -1` and
`interval = -1` (its `range` is nonzero, so no division by zero occurs). -/
theorem construction_no_failure_counterexample :
    (FloatHyperParam.make (FloatBound.finite 1) (FloatBound.finite 0) true true).min = 1 ∧
    (FloatHyperParam.make (FloatBound.finite 1) (FloatBound.finite 0) true true).max = 0 ∧
    (FloatHyperParam.make (FloatBound.finite 1) (FloatBound.finite 0) true true).range = -1 ∧
    (FloatHyperParam.make (FloatBound.finite 1) (FloatBound.finite 0) true true).range < 0 ∧
    (IntHyperParam.make (some 5) (some 3) true true 1).range = -1 ∧
    (IntHyperParam.make (some 5) (some 3) true true 1).interval = -1 := by
  refine ⟨rfl, rfl, ?_, ?_, ?_, ?_⟩ <;>
    norm_num [FloatHyperParam.make, IntHyperParam.make]

/-- C6 as amended: constructing with (adjusted) `min > max` is never
rejected by a bounds check.  The continuous constructor cannot fail and
silently stores `range = max - min < 0`.  The stepped constructor fails
only accidentally, when its derived `range` is exactly `0` (adjusted
`min = max + step`), where `interval = 1 / range` raises
`ZeroDivisionError`; for every other `min > max` configuration the
instance is silently created, with `range < 1` (negative as soon as
`min > max + step`).  Callers must guard the invariant themselves. -/
theorem construction_silent_degenerate_range :
    (∀ mn mx : ℚ, mx < mn →
      (FloatHyperParam.make (FloatBound.finite mn) (FloatBound.finite mx)
        true true).range < 0) ∧
    (∀ m M s : ℤ, M < m → 1 ≤ s →
      (m = M + s →
        IntHyperParam.init (some m) (some M) true true s = none) ∧
      (m ≠ M + s →
        IntHyperParam.init (some m) (some M) true true s
          = some (IntHyperParam.make (some m) (some M) true true s) ∧
        (IntHyperParam.make (some m) (some M) true true s).range < 1)) := by
  constructor
  · intro mn mx h
    show mx - mn < 0
    linarith
  · intro m M s hMm hs
    have hsne : s ≠ 0 := by omega
    have hs0 : (0 : ℚ) < (s : ℚ) := by
      have : (0 : ℤ) < s := by omega
      exact_mod_cast this
    have hrval : (IntHyperParam.make (some m) (some M) true true s).range
        = ((M : ℚ) - (m : ℚ)) / (s : ℚ) + 1 := rfl
    constructor
    · intro he
      have hr0 : (IntHyperParam.make (some m) (some M) true true s).range = 0 := by
        rw [hrval, he]
        have hc : (M : ℚ) - ((M + s : ℤ) : ℚ) = -(s : ℚ) := by
          push_cast
          ring
        rw [hc, neg_div, div_self (ne_of_gt hs0)]
        ring
      simp [IntHyperParam.init, hr0, hsne]
    · intro hne
      have hrne : (IntHyperParam.make (some m) (some M) true true s).range ≠ 0 := by
        rw [hrval]
        intro h0
        apply hne
        have hdiv : ((M : ℚ) - (m : ℚ)) / (s : ℚ) = -1 := by linarith
        have hMm2 : (M : ℚ) - (m : ℚ) = -1 * (s : ℚ) :=
          (div_eq_iff (ne_of_gt hs0)).mp hdiv
        have hcast : (m : ℚ) = ((M + s : ℤ) : ℚ) := by
          push_cast
          linarith
        exact_mod_cast hcast
      refine ⟨?_, ?_⟩
      · simp [IntHyperParam.init, hrne, hsne]
      · rw [hrval]
        have hnum : (M : ℚ) - (m : ℚ) < 0 := by
          have : (M : ℚ) < (m : ℚ) := by exact_mod_cast hMm
          linarith
        have := div_neg_of_neg_of_pos hnum hs0
        linarith

/-- Witness for the amended C6: `IntHyperParam(4, 3, step = 1)` hits the
`ZeroDivisionError` path (`range = 0`), while `FloatHyperParam(1, 0)` and
`IntHyperParam(5, 3, step = 1)` are silently created with degenerate
range. -/
theorem construction_silent_degenerate_range_witness :
    (FloatHyperParam.make (FloatBound.finite 1) (FloatBound.finite 0)
      true true).range < 0 ∧
    IntHyperParam.init (some 4) (some 3) true true 1 = none ∧
    IntHyperParam.init (some 5) (some 3) true true 1
      = some (IntHyperParam.make (some 5) (some 3) true true 1) ∧
    (IntHyperParam.make (some 5) (some 3) true true 1).range < 1 :=
  ⟨construction_silent_degenerate_range.1 1 0 (by norm_num),
   (construction_silent_degenerate_range.2 4 3 1 (by decide) (by decide)).1 (by decide),
   ((construction_silent_degenerate_range.2 5 3 1 (by decide) (by decide)).2
     (by decide)).1,
   ((construction_silent_degenerate_range.2 5 3 1 (by decide) (by decide)).2
     (by decide)).2⟩

/-- C7: the code stores `sys.float_info.min` when `min` is absent or
`-inf` — but that constant is the smallest POSITIVE normalized double
(`2^(-1022)`), not the most negative representable finite float
(`-sys.float_info.max`), so the claim (and the spec sentence it cites)
describes the clear intent while the code stores a positive sentinel.
The `max` side does behave as claimed. -/
theorem float_unbounded_min_substitution_bug :
    (FloatHyperParam.make FloatBound.unbounded (FloatBound.finite 1) true true).min
      = sys_float_info_min ∧
    0 < sys_float_info_min ∧
    sys_float_info_min ≠ most_negative_finite ∧
    (FloatHyperParam.make (FloatBound.finite 0) FloatBound.unbounded true true).max
      = sys_float_info_max := by
  have h1 : (0 : ℚ) < sys_float_info_min := by
    norm_num [sys_float_info_min]
  have h2 : most_negative_finite < 0 := by
    norm_num [most_negative_finite, sys_float_info_max]
  exact ⟨rfl, h1, ne_of_gt (h2.trans h1), rfl⟩

/-- C8 counterexample: the claim asserts that `include_min = False` shifts
the effective minimum inward by one STEP, but at `min = 0`, `max = 10`,
`step = 2`, `include_min = False` the code stores `int(min) + 1 = 1`,
not `min + step = 2`. -/
theorem int_exclusion_shift_counterexample :
    (IntHyperParam.make (some 0) (some 10) false true 2).min = 1 ∧
    (IntHyperParam.make (some 0) (some 10) false true 2).step = 2 ∧
    (1 : ℤ) ≠ 0 + 2 :=
  ⟨rfl, rfl, by decide⟩

/-- C8 as amended: exclusion shifts the effective bound inward by exactly
one (not by one step): `include_min = False` stores `min + 1`,
`include_max = False` stores `max - 1`, and this adjustment happens before
`range` and `interval` are computed (both are derived from the adjusted
bounds). -/
theorem int_exclusion_shift_by_one (m M s : ℤ) (im ix : Bool) :
    (IntHyperParam.make (some m) (some M) im ix s).min
      = (if im then m else m + 1) ∧
    (IntHyperParam.make (some m) (some M) im ix s).max
      = (if ix then M else M - 1) ∧
    (IntHyperParam.make (some m) (some M) im ix s).range
      = (((IntHyperParam.make (some m) (some M) im ix s).max : ℚ)
          - ((IntHyperParam.make (some m) (some M) im ix s).min : ℚ)) / (s : ℚ) + 1 ∧
    (IntHyperParam.make (some m) (some M) im ix s).interval
      = 1 / (IntHyperParam.make (some m) (some M) im ix s).range := by
  cases im <;> cases ix <;> simp [IntHyperParam.make]

/-- C9: `transform` is non-decreasing over the native domain for both
variants: for the continuous variant `(v - min) / range` with
`range = max - min > 0`, and for the stepped variant
`(v - min + 0.5) * interval` with `interval > 0`. -/
theorem transform_monotone :
    (∀ p : FloatHyperParam, p.wf → ∀ v1 v2 : ℚ,
      p.min ≤ v1 → v1 ≤ v2 → v2 ≤ p.max →
      p.transform v1 ≤ p.transform v2) ∧
    (∀ p : IntHyperParam, p.wf → ∀ v1 v2 : ℚ,
      (p.min : ℚ) ≤ v1 → v1 ≤ v2 → v2 ≤ (p.max : ℚ) →
      p.transform v1 ≤ p.transform v2) := by
  constructor
  · intro p hwf v1 v2 _ h12 _
    obtain ⟨hlt, hr⟩ := hwf
    have hrpos : 0 < p.range := by
      rw [hr]
      linarith
    simp only [FloatHyperParam.transform]
    exact div_le_div_of_nonneg_right (by linarith) hrpos.le
  · intro p hwf v1 v2 _ h12 _
    have hint := p.interval_pos hwf
    simp only [IntHyperParam.transform]
    exact mul_le_mul_of_nonneg_right (by linarith) hint.le

/-- Witness for C9: on `FloatHyperParam(0.1, 0.9)` with `0.2 ≤ 0.8` and on
`IntHyperParam(1, 4)` with `2 ≤ 3`. -/
theorem transform_monotone_witness :
    (FloatHyperParam.make (FloatBound.finite (1 / 10)) (FloatBound.finite (9 / 10))
        true true).transform (2 / 10) ≤
      (FloatHyperParam.make (FloatBound.finite (1 / 10)) (FloatBound.finite (9 / 10))
        true true).transform (8 / 10) ∧
    (IntHyperParam.make (some 1) (some 4) true true 1).transform 2 ≤
      (IntHyperParam.make (some 1) (some 4) true true 1).transform 3 :=
  ⟨transform_monotone.1 _ (by norm_num [FloatHyperParam.make, FloatHyperParam.wf])
      (2 / 10) (8 / 10) (by norm_num [FloatHyperParam.make]) (by norm_num)
      (by norm_num [FloatHyperParam.make]),
   transform_monotone.2 _ (by norm_num [IntHyperParam.make, IntHyperParam.wf])
      2 3 (by norm_num [IntHyperParam.make]) (by norm_num)
      (by norm_num [IntHyperParam.make])⟩

/-- C10: for a well-formed `IntHyperParam`, a normalized value lying
exactly on the boundary between the buckets of two adjacent in-range
integers `i` and `i + 1` (its unscaled value `v / interval - 0.5 + min`
equals `i + 0.5` exactly) is resolved by numpy's round-half-to-even: the
result is `i` when `i` is even and `i + 1` otherwise — never
unconditionally the lower or the upper neighbour. -/
theorem int_inverse_transform_ties_to_even (p : IntHyperParam) (_hwf : p.wf)
    (i : ℤ) (v : ℚ) (hlo : p.min ≤ i) (hhi : i + 1 ≤ p.max)
    (htie : v / p.interval - 1 / 2 + (p.min : ℚ) = (i : ℚ) + 1 / 2) :
    p.inverse_transform v = if i % 2 = 0 then i else i + 1 := by
  simp only [IntHyperParam.inverse_transform]
  rw [htie, roundHalfEven_int_add_half]
  split_ifs with h
  · exact p.clamp_of_mem hlo (by omega)
  · exact p.clamp_of_mem (by omega) hhi

/-- Witness for C10 at `min = 1`, `max = 4`, `step = 1` and `v = 1/2`,
whose unscaled value is exactly `2.5`: the tie between `2` and `3` is
resolved to the even integer `2`. -/
theorem int_inverse_transform_ties_to_even_witness :
    (IntHyperParam.make (some 1) (some 4) true true 1).inverse_transform (1 / 2)
      = if (2 : ℤ) % 2 = 0 then (2 : ℤ) else 2 + 1 :=
  int_inverse_transform_ties_to_even _
    (by norm_num [IntHyperParam.make, IntHyperParam.wf]) 2 (1 / 2)
    (by norm_num [IntHyperParam.make]) (by norm_num [IntHyperParam.make])
    (by norm_num [IntHyperParam.make])
